import Mathlib

/-!
Verification of the csvkit-next core (src/src/index.js): the CSV
tokenizer / record mapper (`parseCSV`), the serializer (`stringifyCSV`),
the row operations `filter`, `head`, `tail`, and the expression-based
`transform`.  JavaScript strings are modelled as `List Char`; JavaScript
objects (records) as ordered association lists `List (Str × Str)`,
mirroring JS property-insertion order.  JavaScript numbers are modelled
with exact rationals (plus signed infinities); IEEE-754 rounding and
overflow are idealised away, which is noted at each definition it touches.
-/

namespace Csvkit

/-- JavaScript strings, modelled as lists of characters. -/
abbrev Str := List Char

/-- A JS object used as a CSV record: an ordered association list from
column name to field value, in property-insertion order. -/
abbrev Record := List (Str × Str)

/-- The row-flush condition of `parseCSV` (index.js lines 32 and 45):
`current.length > 0 && current.some(c => c !== '')`. -/
def rowNonBlank (row : List Str) : Bool :=
  !row.isEmpty && row.any (fun f => !f.isEmpty)

/-- The character-level scanning loop of `parseCSV` (index.js lines 10-47),
including the final flush at end of input (lines 43-47).  Arguments:
delimiter, remaining text, `inQuotes`, `field` accumulator, `current` row
accumulator, emitted `rows`. -/
def tokLoop (d : Char) : List Char → Bool → Str → List Str → List (List Str) → List (List Str)
  | [], _, field, current, rows =>
      let current2 := current ++ [field]
      if rowNonBlank current2 then rows ++ [current2] else rows
  | '"' :: '"' :: rest, true, field, current, rows =>
      tokLoop d rest true (field ++ ['"']) current rows
  | '"' :: rest, true, field, current, rows =>
      tokLoop d rest false field current rows
  | c :: rest, true, field, current, rows =>
      tokLoop d rest true (field ++ [c]) current rows
  | '"' :: rest, false, field, current, rows =>
      tokLoop d rest true field current rows
  | '\r' :: '\n' :: rest, false, field, current, rows =>
      if d = '\r' then tokLoop d ('\n' :: rest) false [] (current ++ [field]) rows
      else
        let current2 := current ++ [field]
        tokLoop d rest false [] [] (if rowNonBlank current2 then rows ++ [current2] else rows)
  | '\r' :: rest, false, field, current, rows =>
      if d = '\r' then tokLoop d rest false [] (current ++ [field]) rows
      else tokLoop d rest false field current rows
  | c :: rest, false, field, current, rows =>
      if c = d then tokLoop d rest false [] (current ++ [field]) rows
      else if c = '\n' then
        let current2 := current ++ [field]
        tokLoop d rest false [] [] (if rowNonBlank current2 then rows ++ [current2] else rows)
      else tokLoop d rest false (field ++ [c]) current rows

/-- The tokenizer part of `parseCSV` (index.js lines 4-47): raw text to
rows of raw string fields. -/
def tokenizeCSV (d : Char) (text : List Char) : List (List Str) :=
  tokLoop d text false [] [] []

/-- JS property assignment `obj[k] = v` on an association list: overwrite
in place if the key is present, otherwise append at the end. -/
def objInsert (obj : Record) (k v : Str) : Record :=
  if obj.any (fun p => p.1 = k) then
    obj.map (fun p => if p.1 = k then (p.1, v) else p)
  else obj ++ [(k, v)]

/-- The header-zipping loop of `parseCSV` (index.js lines 53-58):
`headers.forEach((h, i) => obj[h] = row[i] || '')`, walking the row
positionally; a missing or empty `row[i]` yields the empty string. -/
def buildObjAux : List Str → List Str → Record → Record
  | [], _, obj => obj
  | h :: hs, row, obj => buildObjAux hs row.tail (objInsert obj h (row.headD []))

/-- The record-mapper part of `parseCSV` (index.js lines 49-59): first row
is the header, the rest become records. -/
def toRecords : List (List Str) → List Record
  | [] => []
  | headers :: rest => rest.map (fun row => buildObjAux headers row [])

/-- JS `parseCSV(text, delimiter)` (index.js lines 4-60), with the delimiter
as first argument. -/
def parseCSV (d : Char) (text : List Char) : List Record :=
  toRecords (tokenizeCSV d text)

/-- The JS `str.replace(/"/g, '""')` (index.js line 72): double every quote. -/
def doubleQuotes : Str → Str
  | [] => []
  | c :: rest => if c = '"' then '"' :: '"' :: doubleQuotes rest else c :: doubleQuotes rest

/-- The `escapeField` helper of `stringifyCSV` (index.js lines 69-75): quote the
field iff it contains the delimiter, a quote, or a newline. -/
def escapeField (d : Char) (s : Str) : Str :=
  if s.contains d || s.contains '"' || s.contains '\n' then
    '"' :: (doubleQuotes s ++ ['"'])
  else s

/-- JS property read `row[h]` coerced by `String(val ?? '')` (index.js
line 70): the first binding of the key, or the empty string if absent. -/
def lookupD (r : Record) (k : Str) : Str :=
  match r.find? (fun p => p.1 = k) with
  | some p => p.2
  | none => []

/-- JS `array.join(sep)` for a single-character separator. -/
def joinChar (d : Char) : List Str → Str
  | [] => []
  | [f] => f
  | f :: g :: fs => f ++ d :: joinChar d (g :: fs)

/-- JS `stringifyCSV(data, delimiter)` (index.js lines 65-82), with the
delimiter as first argument: header line from the first record's keys,
then one line per record, lines joined by a newline. -/
def stringifyCSV (d : Char) (data : List Record) : Str :=
  match data with
  | [] => []
  | first :: _ =>
    let headers := first.map (fun p => p.1)
    let headerLine := joinChar d (headers.map (escapeField d))
    let rowLines := data.map (fun row => joinChar d (headers.map (fun h => escapeField d (lookupD row h))))
    joinChar '\n' (headerLine :: rowLines)

/-- Keys of a record, in order. -/
def keysOf (r : Record) : List Str := r.map (fun p => p.1)

/-- A field value that the serializer may emit raw only if scanning it
back is faithful: if it contains a carriage return it also contains the
delimiter, a quote, or a newline (and is therefore emitted quoted). -/
def fieldOk (d : Char) (f : Str) : Prop :=
  '\r' ∈ f → (d ∈ f ∨ '"' ∈ f ∨ '\n' ∈ f)

instance (d : Char) (f : Str) : Decidable (fieldOk d f) := by
  unfold fieldOk
  infer_instance

/-- Positional zip of a header against a row, padding missing trailing
fields with the empty string (the specification's reading of the Record
Mapper). -/
def zipPad : List Str → List Str → Record
  | [], _ => []
  | h :: hs, [] => (h, []) :: zipPad hs []
  | h :: hs, v :: vs => (h, v) :: zipPad hs vs

/-! ## JavaScript numbers

JS numbers are IEEE-754 doubles.  They are modelled here by exact
rationals together with the two signed infinities; rounding to the
nearest double and overflow to infinity are idealised away.  `NaN` is
represented by `Option.none` at use sites. -/

/-- A JavaScript number that is not `NaN`: a finite value (exact
rational idealisation) or a signed infinity. -/
inductive JsNum where
  | fin (q : ℚ)
  | inf (neg : Bool)
deriving DecidableEq, Repr

/-- Value of a list of decimal digit characters. -/
def digitsVal (ds : Str) : Nat :=
  ds.foldl (fun acc c => 10 * acc + (c.toNat - 48)) 0

/-- Whitespace skipped by `parseFloat` (ECMA StrWhiteSpace), restricted
to its ASCII part plus no-break space. -/
def isJsWs (c : Char) : Bool :=
  c = ' ' || c = '\t' || c = '\n' || c = '\r' ||
  c = Char.ofNat 11 || c = Char.ofNat 12 || c = Char.ofNat 160

/-- Exponent part of a float literal: `e`/`E`, optional sign, digits;
if there are no digits the exponent is not consumed (value 0). -/
def expValue : Str → Int
  | 'e' :: r => expSigned r
  | 'E' :: r => expSigned r
  | _ => 0
where
  expSigned (r : Str) : Int :=
    let p := match r with
      | '-' :: r2 => (true, r2)
      | '+' :: r2 => (false, r2)
      | _ => (false, r)
    let es := p.2.takeWhile Char.isDigit
    if es.isEmpty then 0
    else if p.1 then -(digitsVal es : Int) else (digitsVal es : Int)

/-- Rational multiplication, written through `mkRat` so that it
evaluates inside the kernel. -/
def ratMul (a b : ℚ) : ℚ := mkRat (a.num * b.num) (a.den * b.den)

/-- Rational addition, written through `mkRat` so that it evaluates
inside the kernel. -/
def ratAdd (a b : ℚ) : ℚ :=
  mkRat (a.num * (b.den : Int) + b.num * (a.den : Int)) (a.den * b.den)

/-- Rational negation through `mkRat`. -/
def ratNeg (a : ℚ) : ℚ := mkRat (-a.num) a.den

/-- Rational subtraction through `mkRat`. -/
def ratSub (a b : ℚ) : ℚ := ratAdd a (ratNeg b)

/-- Rational division through `mkRat` (division by zero yields zero;
every use site guards the zero denominator). -/
def ratDiv (a b : ℚ) : ℚ :=
  let n := a.num * (b.den : Int)
  let m := (a.den : Int) * b.num
  if 0 ≤ m then mkRat n m.natAbs else mkRat (-n) m.natAbs

/-- Scale a rational by a signed power of ten. -/
def mulPow10 (q : ℚ) (e : Int) : ℚ :=
  if 0 ≤ e then ratMul q ((10 : ℚ) ^ e.toNat) else ratDiv q ((10 : ℚ) ^ (-e).toNat)

/-- The ECMAScript `parseFloat` builtin used throughout index.js
(lines 91-94, 127, 203, 234, 286-287): skip leading whitespace, optional
sign, then the longest prefix that is `Infinity` or a decimal literal
`digits [. digits] [exponent]`; `none` models a `NaN` result.  Values
are exact rationals (no double rounding / overflow). -/
def jsParseFloat (s : Str) : Option JsNum :=
  let t := s.dropWhile isJsWs
  let p := match t with
    | '-' :: r => (true, r)
    | '+' :: r => (false, r)
    | _ => (false, t)
  let neg := p.1
  let t1 := p.2
  if List.isPrefixOf ['I', 'n', 'f', 'i', 'n', 'i', 't', 'y'] t1 then
    some (JsNum.inf neg)
  else
    let ds := t1.takeWhile Char.isDigit
    let t2 := t1.drop ds.length
    let fs := match t2 with
      | '.' :: r => r.takeWhile Char.isDigit
      | _ => []
    let t3 := match t2 with
      | '.' :: r => r.drop fs.length
      | _ => t2
    if ds.isEmpty && fs.isEmpty then none
    else
      let mant : ℚ := ratDiv (digitsVal (ds ++ fs) : ℚ) ((10 : ℚ) ^ fs.length)
      let q := mulPow10 mant (expValue t3)
      some (JsNum.fin (if neg then ratNeg q else q))

/-- Decimal digit character. -/
def digitChar (n : Nat) : Char := Char.ofNat (48 + n)

/-- Decimal digits of a natural number (fuelled so that it reduces in
the kernel; `natDigits` supplies enough fuel). -/
def natDigitsAux : Nat → Nat → Str
  | 0, _ => []
  | fuel + 1, n =>
    if n < 10 then [digitChar n]
    else natDigitsAux fuel (n / 10) ++ [digitChar (n % 10)]

/-- Decimal digits of a natural number. -/
def natDigits (n : Nat) : Str := natDigitsAux (n + 1) n

/-- Decimal digits of the fractional part of a rational in `[0, 1)`,
produced by repeated multiplication by ten, up to `fuel` digits. -/
def fracDigits : Nat → ℚ → Str
  | 0, _ => []
  | fuel + 1, r =>
    if r = 0 then []
    else
      let d := (ratMul r 10).floor
      digitChar d.toNat :: fracDigits fuel (ratSub (ratMul r 10) (mkRat d 1))

/-- Decimal rendering of a non-negative rational: integer digits, then a
fractional part when non-zero (at most 32 digits). -/
def renderQNN (q : ℚ) : Str :=
  let ip := q.floor.toNat
  let fd := fracDigits 32 (ratSub q (mkRat q.floor 1))
  natDigits ip ++ (if fd.isEmpty then [] else '.' :: fd)

/-- Decimal rendering of a rational, modelling the JS number-to-string
conversion on plain decimal values; the scientific-notation thresholds
of ECMA `Number::toString` are not modelled. -/
def renderQ (q : ℚ) : Str :=
  if q < 0 then '-' :: renderQNN (ratNeg q) else renderQNN q

/-- JS number-to-string conversion for a non-`NaN` number. -/
def renderJsNum : JsNum → Str
  | JsNum.fin q => renderQ q
  | JsNum.inf neg =>
      if neg then '-' :: ['I', 'n', 'f', 'i', 'n', 'i', 't', 'y']
      else ['I', 'n', 'f', 'i', 'n', 'i', 't', 'y']

/-- Strict `<` on non-`NaN` JS numbers. -/
def jsLt : JsNum → JsNum → Bool
  | JsNum.fin a, JsNum.fin b => a < b
  | JsNum.fin _, JsNum.inf n => !n
  | JsNum.inf n, JsNum.fin _ => n
  | JsNum.inf n1, JsNum.inf n2 => n1 && !n2

/-- Non-strict `≤` on non-`NaN` JS numbers (total order, so the negation
of the reversed strict order). -/
def jsLe (a b : JsNum) : Bool := !jsLt b a

/-! ## The transform expression machinery (index.js lines 113-139) -/

/-- JS regex word character (`\w` is `[A-Za-z0-9_]`). -/
def isWordChar (c : Char) : Bool := c.isAlphanum || c = '_'

/-- JS regex whitespace `\s`, restricted to its ASCII part plus
no-break space. -/
def isJsSpace (c : Char) : Bool :=
  c = ' ' || c = '\t' || c = '\n' || c = '\r' ||
  c = Char.ofNat 11 || c = Char.ofNat 12 || c = Char.ofNat 160

/-- JS regex line terminators, which `.` does not match. -/
def isLineTerm (c : Char) : Bool :=
  c = '\n' || c = '\r' || c = Char.ofNat 0x2028 || c = Char.ofNat 0x2029

/-- The expression parse of `transform` (index.js line 115):
`expression.match(/^(\w+)\s*=\s*(.+)$/)`, returning the identifier and
the body.  The greedy `\s*` after `=` backtracks by at most one
character so that `(.+)` is non-empty; `.` does not match line
terminators. -/
def parseExpr (s : Str) : Option (Str × Str) :=
  let ident := s.takeWhile isWordChar
  if ident.isEmpty then none
  else
    match (s.drop ident.length).dropWhile isJsSpace with
    | '=' :: r2 =>
        if r2.isEmpty then none
        else
          let sp := (r2.takeWhile isJsSpace).length
          let body := r2.drop (min sp (r2.length - 1))
          if body.all (fun c => !isLineTerm c) then some (ident, body) else none
    | _ => none

/-- Does the whole-word regex `\b<col>\b` match at the start of `s`,
given whether the preceding character was a word character?  A `\b`
boundary holds where exactly one side is a word character (an absent
side counts as non-word). -/
def wordMatchAt (col : Str) (prevW : Bool) (s : Str) : Bool :=
  !col.isEmpty && col.isPrefixOf s &&
  (prevW != isWordChar (col.headD '_')) &&
  (isWordChar (col.getLastD '_') !=
    (match (s.drop col.length).head? with
     | some c => isWordChar c
     | none => false))

/-- Global replacement `str.replace(new RegExp('\\b' + col + '\\b', 'g'),
repl)` (index.js line 129), scanning left to right and continuing after
each match; fuelled so that it reduces in the kernel (`replaceWordAll`
supplies fuel `≥` the string length, which is always enough).  Model
notes: the column name is treated literally (the source interpolates it
into regex syntax, so metacharacters in a column name would change the
pattern); an empty column name is modelled as matching nowhere; `$`
patterns in the replacement string are spliced literally. -/
def replaceWordAux (col repl : Str) : Nat → Bool → Str → Str
  | 0, _, s => s
  | _ + 1, _, [] => []
  | fuel + 1, prevW, c :: rest =>
      if wordMatchAt col prevW (c :: rest) then
        repl ++ replaceWordAux col repl fuel (isWordChar (col.getLastD '_')) ((c :: rest).drop col.length)
      else c :: replaceWordAux col repl fuel (isWordChar c) rest

/-- Global whole-word replacement of `col` by `repl` in `s`. -/
def replaceWordAll (col repl s : Str) : Str :=
  replaceWordAux col repl s.length false s

/-- Is there a whole-word match of `col` anywhere in `s`, given the
word-character status of the preceding character? -/
def hasWordOccAux (col : Str) (prevW : Bool) : Str → Bool
  | [] => false
  | c :: rest => wordMatchAt col prevW (c :: rest) || hasWordOccAux col (isWordChar c) rest

/-- The word-character status that scanning a chunk leaves behind: that
of its last character, or the incoming status for an empty chunk. -/
def prevOut (pre : Str) (w : Bool) : Bool :=
  match pre.getLast? with
  | some c => isWordChar c
  | none => w

/-- A complete exponent part (after the `e`/`E` marker): optional sign
then at least one digit, to the end. -/
def expFull : Str → Bool
  | '-' :: r => !r.isEmpty && r.all Char.isDigit
  | '+' :: r => !r.isEmpty && r.all Char.isDigit
  | r => !r.isEmpty && r.all Char.isDigit

/-- Written from the specification's words, for comparison with the
source semantics: the value `parses fully (in its entirety) as a
floating-point number` — the whole string is one float literal
(optional sign, then `Infinity` or digits with optional fraction and
exponent), with no trailing characters. -/
def specFullFloat (s : Str) : Bool :=
  let t := match s with
    | '-' :: r => r
    | '+' :: r => r
    | _ => s
  if t = ['I', 'n', 'f', 'i', 'n', 'i', 't', 'y'] then true
  else
    let ds := t.takeWhile Char.isDigit
    let t2 := t.drop ds.length
    let fs := match t2 with
      | '.' :: r => r.takeWhile Char.isDigit
      | _ => []
    let t3 := match t2 with
      | '.' :: r => r.drop fs.length
      | _ => t2
    (!ds.isEmpty || !fs.isEmpty) &&
    (match t3 with
     | [] => true
     | 'e' :: r => expFull r
     | 'E' :: r => expFull r
     | _ => false)

/-- The per-column replacement text of `transform` (index.js
lines 127-128): the parsed number when `parseFloat` succeeds, else the
value wrapped in double quotes. -/
def replacementFor (val : Str) : Str :=
  match jsParseFloat val with
  | some n => renderJsNum n
  | none => '"' :: (val ++ ['"'])

/-- One iteration of the substitution loop of `transform` (index.js
lines 125-130) for a single column/value pair. -/
def substOne (val col e : Str) : Str := replaceWordAll col (replacementFor val) e

/-- The full substitution loop of `transform` (index.js lines 124-130)
when every column name interpolates into a well-formed pattern: fold
over the record's columns in insertion order. -/
def substRow (row : Record) (e : Str) : Str :=
  row.foldl (fun acc p => substOne p.2 p.1 acc) e

/-- Syntax check of a regex pattern.  The ECMAScript `RegExp` builtin is
not part of the repository source; modelled from the spec (`invalid
pattern syntax fails the whole operation`) as a simplified checker:
groups and character classes must be balanced and no escape may dangle
at the end.  Quantifier placement and other ECMA syntax errors are not
modelled. -/
def regexSyntaxOkAux : Str → Nat → Bool → Bool
  | [], depth, inClass => depth == 0 && !inClass
  | ['\\'], _, _ => false
  | '\\' :: _ :: r2, depth, inClass => regexSyntaxOkAux r2 depth inClass
  | '[' :: rest, depth, false => regexSyntaxOkAux rest depth true
  | ']' :: rest, depth, true => regexSyntaxOkAux rest depth false
  | '(' :: rest, depth, false => regexSyntaxOkAux rest (depth + 1) false
  | ')' :: rest, depth, false =>
      if depth == 0 then false else regexSyntaxOkAux rest (depth - 1) false
  | _ :: rest, depth, inClass => regexSyntaxOkAux rest depth inClass

/-- Validity of a regex pattern, per the simplified model above. -/
def regexValidI (pattern : Str) : Bool := regexSyntaxOkAux pattern 0 false

/-- Does the column name interpolate into a syntactically valid pattern
`\b<col>\b` (index.js line 129)?  The `RegExp` constructor there sits
outside the `try`, so an invalid interpolated pattern aborts the whole
`transform`. -/
def jsWordPatternOk (col : Str) : Bool :=
  regexValidI (('\\' :: 'b' :: col) ++ ['\\', 'b'])

/-- The substitution loop of `transform` as executed (index.js
lines 124-130): columns are processed in insertion order and the first
column whose interpolated pattern is invalid throws (`none`). -/
def substRowE (row : Record) (e : Str) : Option Str :=
  row.foldlM (fun acc p =>
    if jsWordPatternOk p.1 then some (substOne p.2 p.1 acc) else none) e

/-- A JS value produced by the transform expression evaluator. -/
inductive JsVal where
  | num (n : JsNum)
  | str (s : Str)
deriving DecidableEq, Repr

/-- JS value-to-string conversion. -/
def renderVal : JsVal → Str
  | JsVal.num n => renderJsNum n
  | JsVal.str s => s

/-- Tokens of the restricted expression language. -/
inductive ETok where
  | lit (v : JsVal)
  | plus | minus | star | slash | lparen | rparen
deriving DecidableEq, Repr

/-- A decimal number literal made of digits and at most one dot. -/
def numLit (ds : Str) : Option ℚ :=
  let ip := ds.takeWhile Char.isDigit
  match ds.drop ip.length with
  | [] => if ip.isEmpty then none else some ((digitsVal ip : ℚ))
  | '.' :: fr =>
      if fr.all Char.isDigit && !(ip.isEmpty && fr.isEmpty) then
        some (ratDiv (digitsVal (ip ++ fr) : ℚ) ((10 : ℚ) ^ fr.length))
      else none
  | _ => none

/-- Lexer of the restricted expression language evaluated by `eval`
(index.js line 133).  Modelled from the spec, §4.4: the evaluation
primitive is guaranteed only on numeric literals, double-quoted string
literals without escapes, `+ - * /` and parentheses; all other input is
an evaluation failure.  Fuelled by the string length. -/
def lexExprAux : Nat → Str → Option (List ETok)
  | _, [] => some []
  | 0, _ :: _ => none
  | fuel + 1, c :: rest =>
      if isJsSpace c then lexExprAux fuel rest
      else if c = '+' then (ETok.plus :: ·) <$> lexExprAux fuel rest
      else if c = '-' then (ETok.minus :: ·) <$> lexExprAux fuel rest
      else if c = '*' then (ETok.star :: ·) <$> lexExprAux fuel rest
      else if c = '/' then (ETok.slash :: ·) <$> lexExprAux fuel rest
      else if c = '(' then (ETok.lparen :: ·) <$> lexExprAux fuel rest
      else if c = ')' then (ETok.rparen :: ·) <$> lexExprAux fuel rest
      else if c = '"' then
        let sLit := rest.takeWhile (fun ch => ch ≠ '"')
        match rest.drop sLit.length with
        | '"' :: r2 => (ETok.lit (JsVal.str sLit) :: ·) <$> lexExprAux fuel r2
        | _ => none
      else if c.isDigit || c = '.' then
        let ds := (c :: rest).takeWhile (fun ch => ch.isDigit || ch = '.')
        match numLit ds with
        | some q => (ETok.lit (JsVal.num (JsNum.fin q)) :: ·) <$> lexExprAux fuel ((c :: rest).drop ds.length)
        | none => none
      else none

/-- Negation of a non-`NaN` number. -/
def negNum : JsNum → JsNum
  | JsNum.fin q => JsNum.fin (ratNeg q)
  | JsNum.inf n => JsNum.inf (!n)

/-- Addition of non-`NaN` numbers; `none` models a `NaN` result. -/
def addNum : JsNum → JsNum → Option JsNum
  | JsNum.fin a, JsNum.fin b => some (JsNum.fin (ratAdd a b))
  | JsNum.fin _, JsNum.inf n => some (JsNum.inf n)
  | JsNum.inf n, JsNum.fin _ => some (JsNum.inf n)
  | JsNum.inf n, JsNum.inf m => if n = m then some (JsNum.inf n) else none

/-- Multiplication of non-`NaN` numbers; `none` models a `NaN` result. -/
def mulNum : JsNum → JsNum → Option JsNum
  | JsNum.fin a, JsNum.fin b => some (JsNum.fin (ratMul a b))
  | JsNum.fin a, JsNum.inf n => if a = 0 then none else some (JsNum.inf (xor (a < 0) n))
  | JsNum.inf n, JsNum.fin b => if b = 0 then none else some (JsNum.inf (xor (b < 0) n))
  | JsNum.inf n, JsNum.inf m => some (JsNum.inf (xor n m))

/-- Division of non-`NaN` numbers; `none` models a `NaN` result and a
zero denominator yields a signed infinity as in JS. -/
def divNum : JsNum → JsNum → Option JsNum
  | JsNum.fin a, JsNum.fin b =>
      if b = 0 then (if a = 0 then none else some (JsNum.inf (a < 0)))
      else some (JsNum.fin (ratDiv a b))
  | JsNum.fin _, JsNum.inf _ => some (JsNum.fin 0)
  | JsNum.inf n, JsNum.fin b => some (JsNum.inf (xor (b < 0) n))
  | JsNum.inf _, JsNum.inf _ => none

/-- JS `+`: string concatenation when either side is a string, else
numeric addition. -/
def jsAdd : JsVal → JsVal → Option JsVal
  | JsVal.str a, b => some (JsVal.str (a ++ renderVal b))
  | a, JsVal.str b => some (JsVal.str (renderVal a ++ b))
  | JsVal.num a, JsVal.num b => JsVal.num <$> addNum a b

/-- A numeric binary operation; string operands fail (the spec, §4.4,
guarantees `- * /` only on numbers). -/
def jsArith (f : JsNum → JsNum → Option JsNum) : JsVal → JsVal → Option JsVal
  | JsVal.num a, JsVal.num b => JsVal.num <$> f a b
  | _, _ => none

mutual

/-- Parse a factor: a literal, a parenthesised expression, or a unary
minus. -/
def parseF : Nat → List ETok → Option (JsVal × List ETok)
  | 0, _ => none
  | fuel + 1, tks =>
      match tks with
      | ETok.lit v :: rest => some (v, rest)
      | ETok.minus :: rest =>
          match parseF fuel rest with
          | some (JsVal.num n, rest2) => some (JsVal.num (negNum n), rest2)
          | _ => none
      | ETok.lparen :: rest =>
          match parseE fuel rest with
          | some (v, ETok.rparen :: rest2) => some (v, rest2)
          | _ => none
      | _ => none

/-- Parse a term: factors joined by `*` and `/`. -/
def parseT : Nat → List ETok → Option (JsVal × List ETok)
  | 0, _ => none
  | fuel + 1, tks =>
      match parseF fuel tks with
      | some (v, rest) => parseTRest fuel v rest
      | none => none

/-- Left-associated continuation of a term. -/
def parseTRest : Nat → JsVal → List ETok → Option (JsVal × List ETok)
  | 0, _, _ => none
  | fuel + 1, v, ETok.star :: rest =>
      match parseF fuel rest with
      | some (w, rest2) =>
          match jsArith mulNum v w with
          | some u => parseTRest fuel u rest2
          | none => none
      | none => none
  | fuel + 1, v, ETok.slash :: rest =>
      match parseF fuel rest with
      | some (w, rest2) =>
          match jsArith divNum v w with
          | some u => parseTRest fuel u rest2
          | none => none
      | none => none
  | _ + 1, v, rest => some (v, rest)

/-- Parse an expression: terms joined by `+` and `-`. -/
def parseE : Nat → List ETok → Option (JsVal × List ETok)
  | 0, _ => none
  | fuel + 1, tks =>
      match parseT fuel tks with
      | some (v, rest) => parseERest fuel v rest
      | none => none

/-- Left-associated continuation of an expression. -/
def parseERest : Nat → JsVal → List ETok → Option (JsVal × List ETok)
  | 0, _, _ => none
  | fuel + 1, v, ETok.plus :: rest =>
      match parseT fuel rest with
      | some (w, rest2) =>
          match jsAdd v w with
          | some u => parseERest fuel u rest2
          | none => none
      | none => none
  | fuel + 1, v, ETok.minus :: rest =>
      match parseT fuel rest with
      | some (w, rest2) =>
          match jsArith (fun a b => addNum a (negNum b)) v w with
          | some u => parseERest fuel u rest2
          | none => none
      | none => none
  | _ + 1, v, rest => some (v, rest)

end

/-- The evaluation primitive applied by `transform` to the substituted
expression (index.js line 133).  Modelled from the spec, §4.4: a
restricted arithmetic/string expression evaluator (the source uses the
general `eval` builtin; only this subset is contractual).  `none`
models a thrown error. -/
def evalJS (e : Str) : Option JsVal :=
  match lexExprAux e.length e with
  | none => none
  | some tks =>
      match parseE (tks.length + 1) tks with
      | some (v, []) => some v
      | _ => none

/-- JS `transform(data, expression)` (index.js lines 113-139): parse the
expression, then per record substitute column values into the body,
evaluate it, and assign the result to the derived column (empty string
when evaluation fails).  `none` models a thrown error: the `Invalid
expression` error for a malformed expression, or the `RegExp`
constructor throwing on a column name that interpolates into an invalid
pattern (that constructor sits outside the `try`, so it aborts the
whole map).  The derived value is stored in rendered string form (the
JS source stores the raw evaluation result and only renders it on
serialization). -/
def transform (data : List Record) (expression : Str) : Option (List Record) :=
  match parseExpr expression with
  | none => none
  | some (newCol, expr) =>
      data.mapM (fun row =>
        (substRowE row expr).map (fun ev =>
          objInsert row newCol
            (match evalJS ev with
             | some v => renderVal v
             | none => [])))

/-! ## filter, head, tail (index.js lines 87-107, 260-269) -/

/-- ASCII lower-casing, the fragment of `String.prototype.toLowerCase`
relevant to ASCII data. -/
def jsLower (c : Char) : Char :=
  if 'A' ≤ c ∧ c ≤ 'Z' then Char.ofNat (c.toNat + 32) else c

/-- JS `s.toLowerCase()` on the ASCII fragment. -/
def toLowerStr (s : Str) : Str := s.map jsLower

/-- JS `hay.includes(needle)` substring search: does `needle` occur
contiguously inside `hay`? -/
def containsStr (hay needle : Str) : Bool :=
  match hay with
  | [] => needle.isEmpty
  | _ :: t => needle.isPrefixOf hay || containsStr t needle

/-- Case-insensitive regex test, modelled as case-folded literal
substring search (faithful for patterns without metacharacters). -/
def regexTestI (pattern input : Str) : Bool :=
  containsStr (toLowerStr input) (toLowerStr pattern)

/-- The known operator names of `filter` (index.js lines 88-101). -/
def opKnown (opn : Str) : Bool :=
  opn == "eq".toList || opn == "ne".toList || opn == "gt".toList ||
  opn == "lt".toList || opn == "gte".toList || opn == "lte".toList ||
  opn == "contains".toList || opn == "startswith".toList ||
  opn == "endswith".toList || opn == "regex".toList ||
  opn == "empty".toList || opn == "notempty".toList

/-- One predicate application `op(row[column], value)` of `filter`
(index.js lines 88-101), for a known lower-cased operator name; `none`
models a throw inside the predicate (an invalid regex pattern). -/
def applyOpAux (opn : Str) (a b : Str) : Option Bool :=
  if opn == "eq".toList then some (a == b)
  else if opn == "ne".toList then some (a != b)
  else if opn == "gt".toList then
    some (match jsParseFloat a, jsParseFloat b with
          | some x, some y => jsLt y x
          | _, _ => false)
  else if opn == "lt".toList then
    some (match jsParseFloat a, jsParseFloat b with
          | some x, some y => jsLt x y
          | _, _ => false)
  else if opn == "gte".toList then
    some (match jsParseFloat a, jsParseFloat b with
          | some x, some y => jsLe y x
          | _, _ => false)
  else if opn == "lte".toList then
    some (match jsParseFloat a, jsParseFloat b with
          | some x, some y => jsLe x y
          | _, _ => false)
  else if opn == "contains".toList then some (containsStr (toLowerStr a) (toLowerStr b))
  else if opn == "startswith".toList then some ((toLowerStr b).isPrefixOf (toLowerStr a))
  else if opn == "endswith".toList then some ((toLowerStr b).isSuffixOf (toLowerStr a))
  else if opn == "regex".toList then
    if regexValidI b then some (regexTestI b a) else none
  else if opn == "empty".toList then some a.isEmpty
  else some (!a.isEmpty)

/-- The loop `data.filter(row => op(row[column], value))` (index.js line 106)
with a predicate that may throw: rows are tested left to right and the
first throw aborts the whole operation. -/
def filterRowsAux (column opn value : Str) : List Record → Option (List Record)
  | [] => some []
  | r :: rs =>
      match applyOpAux opn (lookupD r column) value with
      | none => none
      | some true => (r :: ·) <$> filterRowsAux column opn value rs
      | some false => filterRowsAux column opn value rs

/-- JS `filter(data, column, operator, value)` (index.js lines 87-107):
the operator name is lower-cased and looked up first (an unknown
operator throws before any row is tested), then rows are filtered.
`none` models a throw.  Model note: a missing column is read as the
empty string here, while JS reads `undefined`; records produced by
`parseCSV` always carry every header key. -/
def filterJs (data : List Record) (column operator0 value : Str) : Option (List Record) :=
  let opn := toLowerStr operator0
  if opKnown opn then filterRowsAux column opn value data else none

/-- JS `head(data, n)` (index.js lines 260-262): `data.slice(0, n)`. -/
def headJs (data : List Record) (n : Nat) : List Record := data.take n

/-- JS `tail(data, n)` (index.js lines 267-269): `data.slice(-n)`.  For
`n = 0` JS computes `slice(0)`, the whole array; otherwise the start
index is `max(length - n, 0)`, i.e. a truncated subtraction. -/
def tailJs (data : List Record) (n : Nat) : List Record :=
  if n = 0 then data else data.drop (data.length - n)

/-! ## Step lemmas for the tokenizer -/

/-- End of input: the last field is appended and the last row flushed if
it has a non-empty field. -/
theorem tokLoop_nil (d : Char) (inQ : Bool) (f : Str) (cur : List Str) (rows : List (List Str)) :
    tokLoop d [] inQ f cur rows =
      if rowNonBlank (cur ++ [f]) then rows ++ [cur ++ [f]] else rows := rfl

/-- Inside quotes, two consecutive quotes emit one literal quote. -/
theorem tokLoop_qq (d : Char) (rest : List Char) (f : Str) (cur : List Str)
    (rows : List (List Str)) :
    tokLoop d ('"' :: '"' :: rest) true f cur rows =
      tokLoop d rest true (f ++ ['"']) cur rows := rfl

/-- Inside quotes, a single quote exits quoted mode. -/
theorem tokLoop_exitq (d : Char) (rest : List Char) (f : Str) (cur : List Str)
    (rows : List (List Str)) (h : rest.head? ≠ some '"') :
    tokLoop d ('"' :: rest) true f cur rows = tokLoop d rest false f cur rows := by
  cases rest with
  | nil => rfl
  | cons c t =>
      have hc : c ≠ '"' := by simpa using h
      rw [tokLoop.eq_def]; simp [hc]

/-- Inside quotes, any other character is appended verbatim. -/
theorem tokLoop_inq (d : Char) (c : Char) (rest : List Char) (f : Str) (cur : List Str)
    (rows : List (List Str)) (h : c ≠ '"') :
    tokLoop d (c :: rest) true f cur rows = tokLoop d rest true (f ++ [c]) cur rows := by
  rw [tokLoop.eq_def]; simp [h]

/-- Outside quotes, a quote enters quoted mode. -/
theorem tokLoop_enterq (d : Char) (rest : List Char) (f : Str) (cur : List Str)
    (rows : List (List Str)) :
    tokLoop d ('"' :: rest) false f cur rows = tokLoop d rest true f cur rows := by
  rw [tokLoop.eq_def]; simp

/-- Outside quotes, the delimiter closes the current field. -/
theorem tokLoop_delim (d : Char) (rest : List Char) (f : Str) (cur : List Str)
    (rows : List (List Str)) (h : d ≠ '"') :
    tokLoop d (d :: rest) false f cur rows = tokLoop d rest false [] (cur ++ [f]) rows := by
  by_cases hr : d = '\r'
  · subst hr
    cases rest with
    | nil => rw [tokLoop.eq_def]; simp
    | cons c t =>
        by_cases hc : c = '\n'
        · subst hc; rw [tokLoop.eq_def]; simp
        · rw [tokLoop.eq_def]; simp [hc]
  · rw [tokLoop.eq_def]; simp [h, hr]

/-- Outside quotes, a newline closes the field and flushes the row if it
has a non-empty field. -/
theorem tokLoop_newline (d : Char) (rest : List Char) (f : Str) (cur : List Str)
    (rows : List (List Str)) (h : d ≠ '\n') :
    tokLoop d ('\n' :: rest) false f cur rows =
      tokLoop d rest false [] []
        (if rowNonBlank (cur ++ [f]) then rows ++ [cur ++ [f]] else rows) := by
  rw [tokLoop.eq_def]; simp [Ne.symm h]

/-- Outside quotes, a plain character is appended verbatim. -/
theorem tokLoop_char (d : Char) (c : Char) (rest : List Char) (f : Str) (cur : List Str)
    (rows : List (List Str)) (h1 : c ≠ '"') (h2 : c ≠ d) (h3 : c ≠ '\n') (h4 : c ≠ '\r') :
    tokLoop d (c :: rest) false f cur rows = tokLoop d rest false (f ++ [c]) cur rows := by
  rw [tokLoop.eq_def]; simp [h1, h2, h3, h4]

/-- Outside quotes, a CRLF (when CR is not the delimiter) closes the
field and flushes the row if it has a non-empty field. -/
theorem tokLoop_crlf (d : Char) (rest : List Char) (f : Str) (cur : List Str)
    (rows : List (List Str)) (h : d ≠ '\r') :
    tokLoop d ('\r' :: '\n' :: rest) false f cur rows =
      tokLoop d rest false [] []
        (if rowNonBlank (cur ++ [f]) then rows ++ [cur ++ [f]] else rows) := by
  rw [tokLoop.eq_def]; simp [h]

/-- Outside quotes, a bare CR (not the delimiter, not followed by LF) is
dropped. -/
theorem tokLoop_cr (d : Char) (rest : List Char) (f : Str) (cur : List Str)
    (rows : List (List Str)) (h : d ≠ '\r') (hn : rest.head? ≠ some '\n') :
    tokLoop d ('\r' :: rest) false f cur rows = tokLoop d rest false f cur rows := by
  cases rest with
  | nil => rw [tokLoop.eq_def]; simp [h]
  | cons c t =>
      have hc : c ≠ '\n' := by simpa using hn
      rw [tokLoop.eq_def]; simp [h, hc]

/-! ## Inversion of the serializer by the tokenizer -/

/-- Scanning a raw (unquoted) field accumulates it verbatim. -/
theorem scanRaw (d : Char) (f : Str) (hd : d ∉ f) (hq : '"' ∉ f) (hn : '\n' ∉ f)
    (hr : '\r' ∉ f) (rest : List Char) (g : Str) (cur : List Str) (rows : List (List Str)) :
    tokLoop d (f ++ rest) false g cur rows = tokLoop d rest false (g ++ f) cur rows := by
  induction f generalizing g with
  | nil => simp
  | cons c f' ih =>
      simp only [List.mem_cons, not_or] at hd hq hn hr
      rw [List.cons_append,
        tokLoop_char d c (f' ++ rest) g cur rows (Ne.symm hq.1) (Ne.symm hd.1) (Ne.symm hn.1)
          (Ne.symm hr.1),
        ih hd.2 hq.2 hn.2 hr.2]
      simp

/-- Scanning the quote-doubled image of a field inside quoted mode
accumulates the original field verbatim and stays in quoted mode. -/
theorem scanQuoted (d : Char) (f : Str) (tail : List Char) (g : Str) (cur : List Str)
    (rows : List (List Str)) :
    tokLoop d (doubleQuotes f ++ tail) true g cur rows =
      tokLoop d tail true (g ++ f) cur rows := by
  induction f generalizing g with
  | nil => simp [doubleQuotes]
  | cons c f' ih =>
      by_cases hc : c = '"'
      · subst hc
        have hdq : doubleQuotes ('"' :: f') = '"' :: '"' :: doubleQuotes f' := by
          simp [doubleQuotes]
        rw [hdq, List.cons_append, List.cons_append, tokLoop_qq, ih]
        simp
      · have hdq : doubleQuotes (c :: f') = c :: doubleQuotes f' := by
          simp [doubleQuotes, hc]
        rw [hdq, List.cons_append, tokLoop_inq d c _ g cur rows hc, ih]
        simp

/-- Scanning a whole quoted field recovers the original field. -/
theorem scanQuotedField (d : Char) (f : Str) (tail : List Char)
    (htail : tail.head? ≠ some '"') (g : Str) (cur : List Str) (rows : List (List Str)) :
    tokLoop d ('"' :: (doubleQuotes f ++ ('"' :: tail))) false g cur rows =
      tokLoop d tail false (g ++ f) cur rows := by
  rw [tokLoop_enterq, scanQuoted, tokLoop_exitq d tail (g ++ f) cur rows htail]

/-- Scanning the escaped image of any `fieldOk` field recovers the
original field. -/
theorem scanField (d : Char) (f : Str) (hok : fieldOk d f) (tail : List Char)
    (htail : tail.head? ≠ some '"') (g : Str) (cur : List Str) (rows : List (List Str)) :
    tokLoop d (escapeField d f ++ tail) false g cur rows =
      tokLoop d tail false (g ++ f) cur rows := by
  unfold escapeField
  split_ifs with h
  · have hsh : ('"' :: (doubleQuotes f ++ ['"'])) ++ tail =
        '"' :: (doubleQuotes f ++ ('"' :: tail)) := by simp
    rw [hsh, scanQuotedField d f tail htail]
  · simp only [List.contains, List.elem_eq_mem, decide_eq_true_eq, Bool.or_eq_true,
      not_or] at h
    obtain ⟨⟨h1, h2⟩, h3⟩ := h
    have hr : '\r' ∉ f := fun hmem => by rcases hok hmem with h4 | h4 | h4 <;> simp_all
    exact scanRaw d f h1 h2 h3 hr tail g cur rows

/-- The `getLastD` of a non-empty list ignores the default. -/
theorem getLastD_stable {α : Type} (l : List α) (h : l ≠ []) (x y : α) :
    l.getLastD x = l.getLastD y := by
  cases l with
  | nil => exact absurd rfl h
  | cons a t => rfl

/-- A non-empty list is its `dropLast` plus its last element. -/
theorem dropLast_append_getLastD {α : Type} (l : List α) (h : l ≠ []) (x : α) :
    l.dropLast ++ [l.getLastD x] = l := by
  induction l with
  | nil => exact absurd rfl h
  | cons a t ih =>
      cases t with
      | nil => rfl
      | cons b t' =>
          have h1 : (a :: b :: t' : List α).dropLast = a :: (b :: t').dropLast := rfl
          have h2 : (a :: b :: t' : List α).getLastD x = (b :: t').getLastD x :=
            getLastD_stable (b :: t') (by simp) a x
          rw [h1, h2, List.cons_append, ih (by simp)]

/-- Scanning a serialized line of escaped fields joined by the delimiter
recovers the original fields: all but the last land in the row
accumulator and the last stays in the field accumulator. -/
theorem scanJoin (d : Char) (hd1 : d ≠ '"') :
    ∀ (fs : List Str), fs ≠ [] → (∀ f ∈ fs, fieldOk d f) →
      ∀ (tail : List Char), tail.head? ≠ some '"' →
        ∀ (cur : List Str) (rows : List (List Str)),
          tokLoop d (joinChar d (fs.map (escapeField d)) ++ tail) false [] cur rows =
            tokLoop d tail false (fs.getLastD []) (cur ++ fs.dropLast) rows := by
  intro fs
  induction fs with
  | nil => intro h; exact absurd rfl h
  | cons f fs' ih =>
      intro _ hok tail htail cur rows
      cases fs' with
      | nil =>
          have hj : joinChar d ([f].map (escapeField d)) = escapeField d f := rfl
          rw [hj, scanField d f (hok f (by simp)) tail htail [] cur rows]
          simp
      | cons f2 fs'' =>
          have hj : joinChar d ((f :: f2 :: fs'').map (escapeField d)) =
              escapeField d f ++
                (d :: joinChar d ((f2 :: fs'').map (escapeField d))) := rfl
          rw [hj, List.append_assoc, List.cons_append,
            scanField d f (hok f (by simp)) _ (by simpa using hd1) [] cur rows,
            List.nil_append,
            tokLoop_delim d _ f cur rows hd1,
            ih (by simp) (fun g hg => hok g (by simp [hg])) tail htail (cur ++ [f]) rows]
          have h2 : (f :: f2 :: fs'' : List Str).getLastD [] = (f2 :: fs'').getLastD [] :=
            getLastD_stable (f2 :: fs'') (by simp) f []
          have h3 : (f :: f2 :: fs'' : List Str).dropLast = f :: (f2 :: fs'').dropLast := rfl
          rw [h2, h3]
          simp

/-- Scanning a serialized line followed by a newline flushes exactly the
original row (when it has a non-empty field). -/
theorem scanLine (d : Char) (hd1 : d ≠ '"') (hd2 : d ≠ '\n') (fs : List Str) (hne : fs ≠ [])
    (hok : ∀ f ∈ fs, fieldOk d f) (rest : List Char) (rows : List (List Str)) :
    tokLoop d (joinChar d (fs.map (escapeField d)) ++ ('\n' :: rest)) false [] [] rows =
      tokLoop d rest false [] [] (if rowNonBlank fs then rows ++ [fs] else rows) := by
  rw [scanJoin d hd1 fs hne hok ('\n' :: rest) (by simp) [] rows, List.nil_append,
    tokLoop_newline d rest _ _ rows hd2, dropLast_append_getLastD fs hne]

/-- Scanning a serialized line at the end of input flushes exactly the
original row (when it has a non-empty field). -/
theorem scanLastLine (d : Char) (hd1 : d ≠ '"') (fs : List Str) (hne : fs ≠ [])
    (hok : ∀ f ∈ fs, fieldOk d f) (rows : List (List Str)) :
    tokLoop d (joinChar d (fs.map (escapeField d))) false [] [] rows =
      if rowNonBlank fs then rows ++ [fs] else rows := by
  have h1 := scanJoin d hd1 fs hne hok [] (by simp) [] rows
  rw [List.append_nil, List.nil_append] at h1
  rw [h1, tokLoop_nil, dropLast_append_getLastD fs hne]

/-- Scanning a whole serialized text (lines joined by newlines) emits
exactly the non-blank original rows. -/
theorem scanLines (d : Char) (hd1 : d ≠ '"') (hd2 : d ≠ '\n') :
    ∀ (ls : List (List Str)) (rows : List (List Str)),
      (∀ row ∈ ls, row ≠ [] ∧ ∀ f ∈ row, fieldOk d f) →
      tokLoop d (joinChar '\n' (ls.map (fun row => joinChar d (row.map (escapeField d)))))
          false [] [] rows =
        rows ++ ls.filter (fun row => rowNonBlank row) := by
  intro ls
  induction ls with
  | nil =>
      intro rows _
      simp [joinChar, tokLoop_nil, rowNonBlank]
  | cons row ls' ih =>
      intro rows hcond
      obtain ⟨hne, hok⟩ := hcond row (by simp)
      cases ls' with
      | nil =>
          have hj : joinChar '\n' ([row].map (fun r => joinChar d (r.map (escapeField d)))) =
              joinChar d (row.map (escapeField d)) := rfl
          rw [hj, scanLastLine d hd1 row hne hok rows, List.filter_cons]
          split_ifs with hb <;> simp
      | cons row2 ls'' =>
          have hj : joinChar '\n'
              ((row :: row2 :: ls'').map (fun r => joinChar d (r.map (escapeField d)))) =
              joinChar d (row.map (escapeField d)) ++
                ('\n' :: joinChar '\n'
                  ((row2 :: ls'').map (fun r => joinChar d (r.map (escapeField d))))) := rfl
          rw [hj, scanLine d hd1 hd2 row hne hok _ rows,
            ih _ (fun r hr => hcond r (by simp [hr]))]
          by_cases hb : rowNonBlank row <;> simp [List.filter_cons, hb]

/-! ## Record mapper lemmas -/

/-- Assigning a fresh key appends it at the end. -/
theorem objInsert_fresh (obj : Record) (k v : Str) (h : ∀ p ∈ obj, p.1 ≠ k) :
    objInsert obj k v = obj ++ [(k, v)] := by
  unfold objInsert
  split_ifs with hany
  · exfalso
    simp only [List.any_eq_true, decide_eq_true_eq] at hany
    obtain ⟨p, hp, he⟩ := hany
    exact h p hp he
  · rfl

/-- A `zipPad` unfolds headwise against `headD` and `tail`. -/
theorem zipPad_cons (h : Str) (hs : List Str) (vs : List Str) :
    zipPad (h :: hs) vs = (h, vs.headD []) :: zipPad hs vs.tail := by
  cases vs <;> rfl

/-- Building a record over pairwise-fresh headers appends the
positional zip of headers against the row. -/
theorem buildObjAux_fresh :
    ∀ (hs : List Str) (vs : List Str) (obj : Record), hs.Nodup →
      (∀ hh ∈ hs, ∀ p ∈ obj, p.1 ≠ hh) →
      buildObjAux hs vs obj = obj ++ zipPad hs vs := by
  intro hs
  induction hs with
  | nil => intro vs obj _ _; simp [buildObjAux, zipPad]
  | cons h hs' ih =>
      intro vs obj hnd hdisj
      have hdisj2 : ∀ hh ∈ hs', ∀ p ∈ obj ++ [(h, vs.headD [])], p.1 ≠ hh := by
        intro hh hhmem p hp
        rcases List.mem_append.mp hp with hp1 | hp2
        · exact hdisj hh (by simp [hhmem]) p hp1
        · have hpe : p = (h, vs.headD []) := by simpa using hp2
          subst hpe
          intro he
          simp only at he
          subst he
          exact (List.nodup_cons.mp hnd).1 hhmem
      rw [buildObjAux, objInsert_fresh obj h (vs.headD []) (fun p hp => hdisj h (by simp) p hp),
        ih vs.tail (obj ++ [(h, vs.headD [])]) (List.nodup_cons.mp hnd).2 hdisj2,
        zipPad_cons, List.append_assoc]
      rfl

/-- The `zipPad` of a record's keys against its values is the record. -/
theorem zipPad_fst_snd : ∀ (r : Record), zipPad (r.map Prod.fst) (r.map Prod.snd) = r := by
  intro r
  induction r with
  | nil => rfl
  | cons p r' ih => rw [List.map_cons, List.map_cons, zipPad]; simpa using ih

/-- Rebuilding a record from its keys and values is the identity when
the keys are pairwise distinct. -/
theorem buildObj_self (r : Record) (hnd : (r.map Prod.fst).Nodup) :
    buildObjAux (r.map Prod.fst) (r.map Prod.snd) [] = r := by
  rw [buildObjAux_fresh _ _ [] hnd (by simp), List.nil_append, zipPad_fst_snd]

/-- Looking up the head key of a record yields the head value. -/
theorem lookupD_cons_self (k v : Str) (r : Record) : lookupD ((k, v) :: r) k = v := by
  simp [lookupD, List.find?_cons_of_pos]

/-- Looking up a key different from the head key skips the head. -/
theorem lookupD_cons_ne (k v k' : Str) (r : Record) (h : k' ≠ k) :
    lookupD ((k, v) :: r) k' = lookupD r k' := by
  simp only [lookupD]
  rw [List.find?_cons_of_neg]
  simp only [decide_eq_true_eq]
  exact fun he => h he.symm

/-- Reading a record's own keys back yields its values, when the keys
are pairwise distinct. -/
theorem lookupD_map_keys (r : Record) (hnd : (r.map Prod.fst).Nodup) :
    (r.map Prod.fst).map (lookupD r) = r.map Prod.snd := by
  induction r with
  | nil => rfl
  | cons p r' ih =>
      obtain ⟨k, v⟩ := p
      simp only [List.map_cons]
      have hk : lookupD ((k, v) :: r') k = v := lookupD_cons_self k v r'
      have hrest : (r'.map Prod.fst).map (lookupD ((k, v) :: r')) =
          (r'.map Prod.fst).map (lookupD r') := by
        apply List.map_congr_left
        intro k' hk'
        apply lookupD_cons_ne
        intro he
        subst he
        exact (List.nodup_cons.mp hnd).1 hk'
      rw [hk, hrest, ih (List.nodup_cons.mp hnd).2]

/-- The serializer output, reshaped as newline-joined lines of
delimiter-joined escaped fields over the unescaped row matrix. -/
theorem stringifyCSV_shape (d : Char) (r0 : Record) (rs : List Record) :
    stringifyCSV d (r0 :: rs) =
      joinChar '\n'
        (((r0.map Prod.fst) :: (r0 :: rs).map (fun r => (r0.map Prod.fst).map (lookupD r))).map
          (fun row => joinChar d (row.map (escapeField d)))) := by
  simp only [stringifyCSV, List.map_cons, List.map_map, Function.comp_def]

/-- A row containing a non-empty field passes the flush condition. -/
theorem rowNonBlank_of_mem {row : List Str} {f : Str} (hmem : f ∈ row) (hne : f ≠ []) :
    rowNonBlank row = true := by
  simp only [rowNonBlank, Bool.and_eq_true, Bool.not_eq_true', List.any_eq_true]
  refine ⟨?_, f, hmem, ?_⟩
  · cases row with
    | nil => cases hmem
    | cons a t => rfl
  · cases f with
    | nil => exact absurd rfl hne
    | cons a t => rfl

/-- Tokenizing the serializer's output recovers the header row and the
records' value rows, under the round-trip side conditions. -/
theorem tokenize_stringify (d : Char) (r0 : Record) (rs : List Record)
    (hd1 : d ≠ '"') (hd2 : d ≠ '\n')
    (hkeys : ∀ r ∈ r0 :: rs, r.map Prod.fst = r0.map Prod.fst)
    (hnd : (r0.map Prod.fst).Nodup)
    (hhdr : ∃ h ∈ r0.map Prod.fst, h ≠ [])
    (hvals : ∀ r ∈ r0 :: rs, ∃ p ∈ r, p.2 ≠ [])
    (hok : ∀ r ∈ r0 :: rs, ∀ p ∈ r, fieldOk d p.1 ∧ fieldOk d p.2) :
    tokenizeCSV d (stringifyCSV d (r0 :: rs)) =
      (r0.map Prod.fst) :: (r0 :: rs).map (fun r => r.map Prod.snd) := by
  have hhdrne : r0.map Prod.fst ≠ [] := by
    obtain ⟨h, hmem, _⟩ := hhdr
    exact List.ne_nil_of_mem hmem
  have hrows : (r0 :: rs).map (fun r => (r0.map Prod.fst).map (lookupD r)) =
      (r0 :: rs).map (fun r => r.map Prod.snd) := by
    apply List.map_congr_left
    intro r hr
    rw [← hkeys r hr]
    exact lookupD_map_keys r ((hkeys r hr).symm ▸ hnd)
  rw [stringifyCSV_shape, hrows]
  unfold tokenizeCSV
  rw [scanLines d hd1 hd2 _ []]
  · rw [List.nil_append]
    apply List.filter_eq_self.mpr
    intro row hrow
    rcases List.mem_cons.mp hrow with hrow1 | hrow2
    · subst hrow1
      obtain ⟨h, hmem, hne⟩ := hhdr
      exact rowNonBlank_of_mem hmem hne
    · obtain ⟨r, hr, hre⟩ := List.mem_map.mp hrow2
      subst hre
      obtain ⟨p, hp, hpne⟩ := hvals r hr
      exact rowNonBlank_of_mem (List.mem_map_of_mem Prod.snd hp) hpne
  · intro row hrow
    rcases List.mem_cons.mp hrow with hrow1 | hrow2
    · subst hrow1
      refine ⟨hhdrne, ?_⟩
      intro f hf
      obtain ⟨p, hp, hpe⟩ := List.mem_map.mp hf
      subst hpe
      exact (hok r0 (by simp) p hp).1
    · obtain ⟨r, hr, hre⟩ := List.mem_map.mp hrow2
      subst hre
      constructor
      · intro hrnil
        apply hhdrne
        rw [← hkeys r hr]
        have : r = [] := by
          cases r with
          | nil => rfl
          | cons q t => simp at hrnil
        rw [this]
        rfl
      · intro f hf
        obtain ⟨p, hp, hpe⟩ := List.mem_map.mp hf
        subst hpe
        exact (hok r hr p hp).2

/-- A row passing the flush condition has a non-empty field. -/
theorem exists_of_rowNonBlank {row : List Str} (h : rowNonBlank row = true) :
    ∃ f ∈ row, f ≠ [] := by
  simp only [rowNonBlank, Bool.and_eq_true, Bool.not_eq_true', List.any_eq_true] at h
  obtain ⟨_, f, hf, hne⟩ := h
  refine ⟨f, hf, ?_⟩
  intro he
  subst he
  simp at hne

/-- A conditional flush preserves the all-rows-non-blank invariant. -/
theorem rows_pres {rows : List (List Str)} {cur2 : List Str}
    (hrows : ∀ r ∈ rows, ∃ g ∈ r, g ≠ []) :
    ∀ r ∈ (if rowNonBlank cur2 then rows ++ [cur2] else rows), ∃ g ∈ r, g ≠ [] := by
  split_ifs with hb
  · intro r hr
    rcases List.mem_append.mp hr with h1 | h2
    · exact hrows r h1
    · have : r = cur2 := by simpa using h2
      subst this
      exact exists_of_rowNonBlank hb
  · exact hrows

/-- Every row the scanning loop ever emits has a non-empty field,
provided the rows accumulated so far do. -/
theorem tokLoop_rows_nonblank (d : Char) :
    ∀ (text : List Char) (inQ : Bool) (f : Str) (cur : List Str) (rows : List (List Str)),
      (∀ r ∈ rows, ∃ g ∈ r, g ≠ []) →
      ∀ r ∈ tokLoop d text inQ f cur rows, ∃ g ∈ r, g ≠ [] := by
  intro text inQ f cur rows
  induction text, inQ, f, cur, rows using tokLoop.induct d with
  | case1 x field current rows cur2 hb =>
      intro hrows r hr
      rw [tokLoop_nil, if_pos hb] at hr
      rcases List.mem_append.mp hr with h1 | h2
      · exact hrows r h1
      · have : r = current ++ [field] := by simpa using h2
        subst this
        exact exists_of_rowNonBlank hb
  | case2 x field current rows cur2 hb =>
      intro hrows r hr
      rw [tokLoop_nil, if_neg hb] at hr
      exact hrows r hr
  | case3 rest field current rows ih =>
      intro hrows r hr
      rw [tokLoop_qq] at hr
      exact ih hrows r hr
  | case4 rest field current rows hcond ih =>
      intro hrows r hr
      have hh : rest.head? ≠ some '"' := by
        cases rest with
        | nil => simp
        | cons c t =>
            simp only [List.head?, ne_eq, Option.some.injEq]
            intro he
            exact hcond t (by rw [he])
      rw [tokLoop_exitq d rest field current rows hh] at hr
      exact ih hrows r hr
  | case5 c rest field current rows hcond hc ih =>
      intro hrows r hr
      rw [tokLoop_inq d c rest field current rows (fun he => hc he)] at hr
      exact ih hrows r hr
  | case6 rest field current rows ih =>
      intro hrows r hr
      rw [tokLoop_enterq] at hr
      exact ih hrows r hr
  | case7 rest field current rows hd ih =>
      intro hrows r hr
      subst hd
      rw [tokLoop_delim _ _ field current rows (by decide)] at hr
      exact ih hrows r hr
  | case8 rest field current rows hd cur2 ih =>
      intro hrows r hr
      rw [tokLoop_crlf d rest field current rows hd] at hr
      exact ih (rows_pres hrows) r hr
  | case9 rest field current rows hcond hd ih =>
      intro hrows r hr
      subst hd
      rw [tokLoop_delim _ _ field current rows (by decide)] at hr
      exact ih hrows r hr
  | case10 rest field current rows hcond hd ih =>
      intro hrows r hr
      have hh : rest.head? ≠ some '\n' := by
        cases rest with
        | nil => simp
        | cons c t =>
            simp only [List.head?, ne_eq, Option.some.injEq]
            intro he
            exact hcond t (by rw [he])
      rw [tokLoop_cr d rest field current rows hd hh] at hr
      exact ih hrows r hr
  | case11 rest field current rows hq hcond hcr ih =>
      intro hrows r hr
      rw [tokLoop_delim d rest field current rows (fun he => hq he)] at hr
      exact ih hrows r hr
  | case12 rest field current rows cur2 hq hcond hcr hd ih =>
      intro hrows r hr
      rw [tokLoop_newline d rest field current rows (fun he => hd he.symm)] at hr
      exact ih (rows_pres hrows) r hr
  | case13 c rest field current rows hq hcond hcr hd hn ih =>
      intro hrows r hr
      rw [tokLoop_char d c rest field current rows (fun he => hq he) hd
        (fun he => hn he) (fun he => hcr he)] at hr
      exact ih hrows r hr

/-- The `zipPad` only reads the row up to the header length (excess fields
are dropped). -/
theorem zipPad_take : ∀ (hs : List Str) (vs : List Str),
    zipPad hs vs = zipPad hs (vs.take hs.length) := by
  intro hs
  induction hs with
  | nil => intro vs; rfl
  | cons h hs' ih =>
      intro vs
      cases vs with
      | nil => rfl
      | cons v vs' =>
          simp only [List.length_cons, List.take_succ_cons, zipPad]
          exact congrArg _ (ih vs')

/-- The keys of a `zipPad` result are exactly the headers. -/
theorem zipPad_keys : ∀ (hs : List Str) (vs : List Str),
    (zipPad hs vs).map Prod.fst = hs := by
  intro hs
  induction hs with
  | nil => intro vs; rfl
  | cons h hs' ih =>
      intro vs
      cases vs with
      | nil => simp [zipPad, ih]
      | cons v vs' => simp [zipPad, ih]

/-! ## Claim theorems -/

/-- C1, counterexample to the claim as stated: the round trip through
`stringifyCSV` and `parseCSV` fails (with a delimiter absent from the
data) for a record whose fields are all empty (blank-line suppression
drops it), for a value with a bare carriage return (dropped when the
field is emitted raw), for the newline delimiter, for the quote
delimiter, and for a header whose only name is empty (the header line is
blank and suppressed). -/
theorem claim1_roundtrip_counterexample :
    parseCSV ',' (stringifyCSV ',' [[(['a'], [])]]) ≠ [[(['a'], [])]] ∧
    parseCSV ',' (stringifyCSV ',' [[(['a'], ['x', '\r'])]]) ≠ [[(['a'], ['x', '\r'])]] ∧
    parseCSV '\n' (stringifyCSV '\n' [[(['a'], ['x'])]]) ≠ [[(['a'], ['x'])]] ∧
    parseCSV '"' (stringifyCSV '"' [[(['a'], ['1']), (['b'], ['2'])]]) ≠
      [[(['a'], ['1']), (['b'], ['2'])]] ∧
    parseCSV ',' (stringifyCSV ',' [[([], ['x'])]]) ≠ [[([], ['x'])]] := by
  refine ⟨?_, ?_, ?_, ?_, ?_⟩ <;> decide

/-- C1 (amended): the round trip `parseCSV d (stringifyCSV d D) = D`
holds for every non-empty dataset `D` whose records all share the first
record's key sequence with pairwise-distinct keys, provided the
delimiter is neither the quote nor the newline character, at least one
header name is non-empty, every record has at least one non-empty value,
and any name or value containing a carriage return also contains the
delimiter, a quote, or a newline (so that it is emitted quoted). -/
theorem claim1_roundtrip_amended (d : Char) (r0 : Record) (rs : List Record)
    (hd1 : d ≠ '"') (hd2 : d ≠ '\n')
    (hkeys : ∀ r ∈ r0 :: rs, r.map Prod.fst = r0.map Prod.fst)
    (hnd : (r0.map Prod.fst).Nodup)
    (hhdr : ∃ h ∈ r0.map Prod.fst, h ≠ [])
    (hvals : ∀ r ∈ r0 :: rs, ∃ p ∈ r, p.2 ≠ [])
    (hok : ∀ r ∈ r0 :: rs, ∀ p ∈ r, fieldOk d p.1 ∧ fieldOk d p.2) :
    parseCSV d (stringifyCSV d (r0 :: rs)) = r0 :: rs := by
  unfold parseCSV
  rw [tokenize_stringify d r0 rs hd1 hd2 hkeys hnd hhdr hvals hok]
  simp only [toRecords, List.map_map, Function.comp_def]
  have hself : ∀ r ∈ r0 :: rs, buildObjAux (r0.map Prod.fst) (r.map Prod.snd) [] = r := by
    intro r hr
    rw [← hkeys r hr]
    exact buildObj_self r ((hkeys r hr).symm ▸ hnd)
  calc ((r0 :: rs).map fun r => buildObjAux (r0.map Prod.fst) (r.map Prod.snd) [])
      = (r0 :: rs).map id := List.map_congr_left hself
    _ = r0 :: rs := List.map_id (r0 :: rs)

/-- C1 witness: the amended round trip at a concrete two-record dataset
with an embedded delimiter and an empty value. -/
theorem claim1_roundtrip_amended_witness :
    parseCSV ',' (stringifyCSV ','
      [[(['a'], ['1']), (['b'], ['x', ',', 'y'])], [(['a'], []), (['b'], ['2'])]]) =
      [[(['a'], ['1']), (['b'], ['x', ',', 'y'])], [(['a'], []), (['b'], ['2'])]] :=
  claim1_roundtrip_amended ',' [(['a'], ['1']), (['b'], ['x', ',', 'y'])]
    [[(['a'], []), (['b'], ['2'])]] (by decide) (by decide) (by decide) (by decide)
    (by decide) (by decide) (by decide)

/-- C6: the tokenizer never emits a row all of whose fields are empty
(for every input and delimiter), and the blank line in `a,b\n\n1,2\n`
produces no row: the result is the header row and one data row. -/
theorem claim6_blank_rows_suppressed :
    (∀ (d : Char) (text : List Char), ∀ row ∈ tokenizeCSV d text, ∃ f ∈ row, f ≠ []) ∧
    tokenizeCSV ',' ("a,b\n\n1,2\n".toList) = [[['a'], ['b']], [['1'], ['2']]] := by
  constructor
  · intro d text row hrow
    exact tokLoop_rows_nonblank d text false [] [] [] (by simp) row hrow
  · decide

/-- C6 witness: the invariant applied to a concrete tokenizer output. -/
theorem claim6_blank_rows_suppressed_witness :
    ∃ f ∈ [['a'], ['b']], f ≠ ([] : Str) :=
  claim6_blank_rows_suppressed.1 ',' ("a,b".toList) [['a'], ['b']] (by decide)

/-- C9: inside quotes, a doubled quote emits one literal quote, a single
quote exits quoted mode, and any other character (delimiters and line
terminators included) is appended verbatim — so tokenizing a quoted
field recovers exactly the original field as one row with one field,
for every delimiter; and the two concrete cases from the specification:
the escaped-quote example and a quoted field with an embedded newline
that is not split into two rows. -/
theorem claim9_quoted_field_rules :
    (∀ (d : Char) (f : Str), f ≠ [] →
      tokenizeCSV d ('"' :: (doubleQuotes f ++ ['"'])) = [[f]]) ∧
    tokenizeCSV ',' ("\"he said \"\"hi\"\"\"".toList) = [["he said \"hi\"".toList]] ∧
    tokenizeCSV ',' ("\"a\nb\"".toList) = [["a\nb".toList]] := by
  refine ⟨?_, by decide, by decide⟩
  intro d f hne
  unfold tokenizeCSV
  have hsh : ('"' :: (doubleQuotes f ++ ['"'])) =
      '"' :: (doubleQuotes f ++ ('"' :: ([] : List Char))) := rfl
  rw [hsh, scanQuotedField d f [] (by simp) [] [] [], tokLoop_nil, List.nil_append,
    List.nil_append, if_pos (rowNonBlank_of_mem (List.mem_singleton.mpr rfl) hne)]
  rfl

/-- C9 witness: the quoted-field rule applied to a field containing a
quote, the delimiter, and a newline. -/
theorem claim9_quoted_field_rules_witness :
    tokenizeCSV ',' ('"' :: (doubleQuotes ['x', '"', ',', '\n', 'y'] ++ ['"'])) =
      [[['x', '"', ',', '\n', 'y']]] :=
  claim9_quoted_field_rules.1 ',' ['x', '"', ',', '\n', 'y'] (by decide)

/-- C7: the Record Mapper sends zero rows to the empty dataset, and for
a header with distinct names it zips each row against the header
positionally — missing trailing fields default to the empty string
(`zipPad` pads with `[]`) and excess fields are dropped (`take` to the
header length) with no error. -/
theorem claim7_record_mapper :
    toRecords [] = [] ∧
    ∀ (headers : List Str) (rows : List (List Str)), headers.Nodup →
      toRecords (headers :: rows) =
        rows.map (fun row => zipPad headers (row.take headers.length)) := by
  refine ⟨rfl, ?_⟩
  intro headers rows hnd
  simp only [toRecords]
  apply List.map_congr_left
  intro row hrow
  rw [buildObjAux_fresh headers row [] hnd (by simp), List.nil_append]
  exact zipPad_take headers row

/-- C7 witness: a short row is padded and a long row truncated. -/
theorem claim7_record_mapper_witness :
    toRecords [[['a'], ['b']], [['1']], [['1'], ['2'], ['3']]] =
      ([[['1']], [['1'], ['2'], ['3']]] : List (List Str)).map
        (fun row => zipPad [['a'], ['b']] (row.take 2)) :=
  claim7_record_mapper.2 [['a'], ['b']] [[['1']], [['1'], ['2'], ['3']]] (by decide)

/-- C10: whenever the tokenized text has a header row with pairwise
distinct names, every record produced by `parseCSV` has exactly the
header names as its keys, in header order (values are total strings by
construction — never null or undefined). -/
theorem claim10_uniform_records (d : Char) (text : List Char) (headers : List Str)
    (rest : List (List Str)) (htok : tokenizeCSV d text = headers :: rest)
    (hnd : headers.Nodup) :
    ∀ rec ∈ parseCSV d text, rec.map Prod.fst = headers := by
  intro rec hrec
  unfold parseCSV at hrec
  rw [htok] at hrec
  simp only [toRecords] at hrec
  obtain ⟨row, hrow, hre⟩ := List.mem_map.mp hrec
  subst hre
  rw [buildObjAux_fresh headers row [] hnd (by simp), List.nil_append]
  exact zipPad_keys headers row

/-- C10 witness: the keys of a record parsed from a malformed (short)
data row are still exactly the header names. -/
theorem claim10_uniform_records_witness :
    ([(['a'], ['1']), (['b'], [])] : Record).map Prod.fst = [['a'], ['b']] :=
  claim10_uniform_records ',' ("a,b\n1".toList) [['a'], ['b']] [[['1']]]
    (by decide) (by decide) [(['a'], ['1']), (['b'], [])] (by decide)

/-- C3, counterexample to the claim as stated: `tail(D, 0)` does not
return the last `min(0, |D|) = 0` records; JS `slice(-0)` is `slice(0)`,
the whole dataset. -/
theorem claim3_head_tail_counterexample :
    tailJs [[(['a'], ['1'])]] 0 ≠ [] := by decide

/-- C3 (amended): `head` returns exactly the first `min(n, |D|)` records
and, for `n ≥ 1`, `tail` returns exactly the last `min(n, |D|)` records,
in order and without error; `tail(D, 0)` returns the whole dataset. -/
theorem claim3_head_tail_amended (data : List Record) (n : Nat) :
    ((headJs data n).length = min n data.length ∧ headJs data n ++ data.drop n = data) ∧
    (1 ≤ n → (tailJs data n).length = min n data.length ∧
      data.take (data.length - n) ++ tailJs data n = data) ∧
    tailJs data 0 = data := by
  refine ⟨⟨?_, ?_⟩, ?_, ?_⟩
  · simp [headJs]
  · simp [headJs, List.take_append_drop]
  · intro hn
    constructor
    · rw [tailJs, if_neg (by omega), List.length_drop]
      omega
    · rw [tailJs, if_neg (by omega)]
      exact List.take_append_drop _ data
  · simp [tailJs]

/-- C3 witness: `tail` with `n = 2` on a three-record dataset. -/
theorem claim3_head_tail_amended_witness :
    1 ≤ 2 ∧
      ((tailJs [[(['a'], ['1'])], [(['a'], ['2'])], [(['a'], ['3'])]] 2).length =
        min 2 ([[(['a'], ['1'])], [(['a'], ['2'])], [(['a'], ['3'])]] : List Record).length ∧
      ([[(['a'], ['1'])], [(['a'], ['2'])], [(['a'], ['3'])]] : List Record).take (3 - 2) ++
        tailJs [[(['a'], ['1'])], [(['a'], ['2'])], [(['a'], ['3'])]] 2 =
        [[(['a'], ['1'])], [(['a'], ['2'])], [(['a'], ['3'])]]) :=
  ⟨by decide,
    (claim3_head_tail_amended [[(['a'], ['1'])], [(['a'], ['2'])], [(['a'], ['3'])]] 2).2.1
      (by decide)⟩

/-! ## filter lemmas and claims C4, C8 -/

/-- The predicate table entry for `regex`. -/
theorem applyOp_regex (a b : Str) :
    applyOpAux ("regex".toList) a b =
      if regexValidI b then some (regexTestI b a) else none := rfl

/-- Filtering with a predicate that is total on every row value yields
`List.filter` of that predicate. -/
theorem filterRows_total (col opn v : Str) (p : Str → Bool)
    (hp : ∀ a, applyOpAux opn a v = some (p a)) :
    ∀ data, filterRowsAux col opn v data =
      some (data.filter (fun r => p (lookupD r col))) := by
  intro data
  induction data with
  | nil => rfl
  | cons r rs ih =>
      rw [filterRowsAux, hp (lookupD r col)]
      by_cases hpr : p (lookupD r col) = true
      · simp [hpr, ih, List.filter_cons]
      · rw [Bool.not_eq_true] at hpr
        simp [hpr, ih, List.filter_cons]

/-- C4, counterexample to the claim as stated: the pattern `(` is
syntactically invalid, yet on the empty dataset the regex filter
returns the empty dataset without error (the predicate — and hence the
`RegExp` construction — never runs when there is no row). -/
theorem claim4_filter_regex_counterexample :
    regexValidI ("(".toList) = false ∧
    filterJs [] (['c']) ("regex".toList) ("(".toList) = some [] := by
  constructor
  · decide
  · rfl

/-- C4 (amended): on a dataset with at least one record, an invalid
regex pattern fails the whole filter operation and a valid pattern
filters without error; on the empty dataset the operation returns the
empty dataset without error regardless of the pattern; and the match is
case-insensitive — it only depends on the case-folded row value. -/
theorem claim4_filter_regex_amended :
    (∀ (col v : Str), filterJs [] col ("regex".toList) v = some []) ∧
    (∀ (r : Record) (rs : List Record) (col v : Str), regexValidI v = false →
      filterJs (r :: rs) col ("regex".toList) v = none) ∧
    (∀ (data : List Record) (col v : Str), regexValidI v = true →
      filterJs data col ("regex".toList) v =
        some (data.filter (fun r => regexTestI v (lookupD r col)))) ∧
    (∀ (pat s t : Str), toLowerStr s = toLowerStr t → regexTestI pat s = regexTestI pat t) := by
  refine ⟨fun col v => rfl, ?_, ?_, ?_⟩
  · intro r rs col v hv
    show filterRowsAux col ("regex".toList) v (r :: rs) = none
    rw [filterRowsAux, applyOp_regex, if_neg (by simp [hv])]
  · intro data col v hv
    show filterRowsAux col ("regex".toList) v data = _
    exact filterRows_total col _ v (fun a => regexTestI v a)
      (fun a => by rw [applyOp_regex, if_pos hv]) data
  · intro pat s t hst
    unfold regexTestI
    rw [hst]

/-- C4 witness: a valid pattern filters a one-record dataset, matching
case-insensitively. -/
theorem claim4_filter_regex_amended_witness :
    regexValidI ("gmail".toList) = true ∧
    filterJs [[(['c'], "x@GMAIL.com".toList)]] ['c'] ("regex".toList) ("gmail".toList) =
      some ([[(['c'], "x@GMAIL.com".toList)]].filter
        (fun r => regexTestI ("gmail".toList) (lookupD r ['c']))) :=
  ⟨by decide,
    claim4_filter_regex_amended.2.2.1 [[(['c'], "x@GMAIL.com".toList)]] ['c']
      ("gmail".toList) (by decide)⟩

/-- The predicate table entry for `gt`. -/
theorem applyOp_gt (a b : Str) :
    applyOpAux ("gt".toList) a b =
      some (match jsParseFloat a, jsParseFloat b with
            | some x, some y => jsLt y x
            | _, _ => false) := rfl

/-- The predicate table entry for `lt`. -/
theorem applyOp_lt (a b : Str) :
    applyOpAux ("lt".toList) a b =
      some (match jsParseFloat a, jsParseFloat b with
            | some x, some y => jsLt x y
            | _, _ => false) := rfl

/-- The predicate table entry for `gte`. -/
theorem applyOp_gte (a b : Str) :
    applyOpAux ("gte".toList) a b =
      some (match jsParseFloat a, jsParseFloat b with
            | some x, some y => jsLe y x
            | _, _ => false) := rfl

/-- The predicate table entry for `lte`. -/
theorem applyOp_lte (a b : Str) :
    applyOpAux ("lte".toList) a b =
      some (match jsParseFloat a, jsParseFloat b with
            | some x, some y => jsLe x y
            | _, _ => false) := rfl

/-- C8: each numeric filter operator returns, without error, exactly the
rows for which both the row's value and the comparison value parse by
`parseFloat` and the numeric comparison holds (a `NaN` on either side
excludes the row); the result is a sublist of the dataset (original
relative order); and the spec's example: ages 25/40/abc filtered with
gt 30 keep only the 40 row. -/
theorem claim8_filter_numeric :
    ((∀ (data : List Record) (col v : Str),
      filterJs data col ("gt".toList) v =
        some (data.filter (fun r =>
          match jsParseFloat (lookupD r col), jsParseFloat v with
          | some x, some y => jsLt y x
          | _, _ => false))) ∧
    (∀ (data : List Record) (col v : Str),
      filterJs data col ("lt".toList) v =
        some (data.filter (fun r =>
          match jsParseFloat (lookupD r col), jsParseFloat v with
          | some x, some y => jsLt x y
          | _, _ => false))) ∧
    (∀ (data : List Record) (col v : Str),
      filterJs data col ("gte".toList) v =
        some (data.filter (fun r =>
          match jsParseFloat (lookupD r col), jsParseFloat v with
          | some x, some y => jsLe y x
          | _, _ => false))) ∧
    (∀ (data : List Record) (col v : Str),
      filterJs data col ("lte".toList) v =
        some (data.filter (fun r =>
          match jsParseFloat (lookupD r col), jsParseFloat v with
          | some x, some y => jsLe x y
          | _, _ => false)))) ∧
    (∀ (data : List Record) (p : Record → Bool), (data.filter p).Sublist data) ∧
    filterJs [[("age".toList, "25".toList)], [("age".toList, "40".toList)],
        [("age".toList, "abc".toList)]]
      ("age".toList) ("gt".toList) ("30".toList) =
      some [[("age".toList, "40".toList)]] := by
  refine ⟨⟨?_, ?_, ?_, ?_⟩, fun data p => List.filter_sublist data, by decide⟩
  · intro data col v
    exact filterRows_total col _ v _ (fun a => applyOp_gt a v) data
  · intro data col v
    exact filterRows_total col _ v _ (fun a => applyOp_lt a v) data
  · intro data col v
    exact filterRows_total col _ v _ (fun a => applyOp_gte a v) data
  · intro data col v
    exact filterRows_total col _ v _ (fun a => applyOp_lte a v) data

/-! ## objInsert lemmas and claim C5 -/

/-- The key sequence after JS assignment `obj[k] = v`: unchanged when
the key exists, extended at the end otherwise. -/
theorem keysOf_objInsert (row : Record) (k v : Str) :
    keysOf (objInsert row k v) =
      if k ∈ keysOf row then keysOf row else keysOf row ++ [k] := by
  have hc : (row.any fun p => decide (p.1 = k)) = true ↔ k ∈ row.map (fun p => p.1) := by
    simp [List.any_eq_true, List.mem_map]
  unfold objInsert keysOf
  by_cases hk : k ∈ row.map (fun p => p.1)
  · rw [if_pos (hc.mpr hk), if_pos hk, List.map_map]
    apply List.map_congr_left
    intro p _
    by_cases hp : p.1 = k <;> simp [hp]
  · rw [if_neg (fun hh => hk (hc.mp hh)), if_neg hk, List.map_append]
    rfl

/-- JS assignment `obj[k] = v` keeps every binding of a different key. -/
theorem mem_objInsert_of_ne (row : Record) (k v : Str) (p : Str × Str) (hp : p ∈ row)
    (hne : p.1 ≠ k) : p ∈ objInsert row k v := by
  unfold objInsert
  split_ifs with h
  · have hm := List.mem_map_of_mem (fun q => if q.1 = k then (q.1, v) else q) hp
    simpa [hne] using hm
  · exact List.mem_append_left _ hp

/-- The `find?` scan skips a left part in which nothing matches. -/
theorem find?_append_none {α : Type} (p : α → Bool) (l1 l2 : List α)
    (h : l1.find? p = none) : (l1 ++ l2).find? p = l2.find? p := by
  induction l1 with
  | nil => rfl
  | cons a t ih =>
      by_cases hpa : p a = true
      · rw [List.find?_cons_of_pos _ hpa] at h
        cases h
      · rw [List.find?_cons_of_neg _ (by simp [hpa])] at h
        rw [List.cons_append, List.find?_cons_of_neg _ (by simp [hpa]), ih h]

/-- After JS assignment `obj[k] = v`, reading `k` yields `v`. -/
theorem lookupD_objInsert_self (row : Record) (k v : Str) :
    lookupD (objInsert row k v) k = v := by
  unfold objInsert
  split_ifs with h
  · unfold lookupD
    rw [List.find?_map]
    have hpe : ((fun p => decide ((p : Str × Str).1 = k)) ∘ fun q => if q.1 = k then (q.1, v) else q) =
        (fun q => decide (q.1 = k)) := by
      funext q
      by_cases hq : q.1 = k <;> simp [hq]
    rw [hpe]
    simp only [List.any_eq_true, decide_eq_true_eq] at h
    obtain ⟨p0, hp0mem, hp0k⟩ := h
    have hsome : ∃ q, row.find? (fun q => decide (q.1 = k)) = some q := by
      have : (row.find? (fun q => decide (q.1 = k))).isSome := by
        rw [List.find?_isSome]
        exact ⟨p0, hp0mem, by simp [hp0k]⟩
      exact Option.isSome_iff_exists.mp this
    obtain ⟨q0, hq0⟩ := hsome
    have hk0 : q0.1 = k := by
      have := List.find?_some hq0
      simpa using this
    rw [hq0]
    simp [Option.map_some, hk0]
  · unfold lookupD
    have hnone : row.find? (fun q => decide (q.1 = k)) = none := by
      rw [List.find?_eq_none]
      intro p hp
      simp only [decide_eq_true_eq]
      intro he
      exact h (by simp only [List.any_eq_true, decide_eq_true_eq]; exact ⟨p, hp, he⟩)
    rw [find?_append_none _ row _ hnone]
    simp [List.find?_cons_of_pos]

/-- When every column name interpolates into a valid pattern, the
executed substitution loop equals the pure fold. -/
theorem substRowE_of_safe : ∀ (row : Record) (e : Str),
    (∀ p ∈ row, jsWordPatternOk p.1 = true) →
    substRowE row e = some (substRow row e) := by
  intro row
  induction row with
  | nil => intro e _; rfl
  | cons p row' ih =>
      intro e hsafe
      unfold substRowE substRow
      rw [List.foldlM_cons, if_pos (hsafe p (by simp))]
      show substRowE row' (substOne p.2 p.1 e) = _
      rw [ih (substOne p.2 p.1 e) (fun q hq => hsafe q (by simp [hq])), List.foldl_cons]
      rfl

/-- An everywhere-`some` `mapM` over `Option` is the plain `map`. -/
theorem mapM_eq_some_map {α β : Type} (f : α → Option β) (g : α → β) :
    ∀ (l : List α), (∀ a ∈ l, f a = some (g a)) → l.mapM f = some (l.map g) := by
  intro l
  induction l with
  | nil => intro _; rfl
  | cons a l' ih =>
      intro h
      rw [List.mapM_cons, h a (by simp), ih (fun b hb => h b (by simp [hb])), List.map_cons]
      rfl

/-- C5, counterexample to the claim as stated: for a record with the
column name `a(` and the valid expression `b=1`, the interpolated
pattern `\ba(\b` is invalid regex syntax, the `RegExp` constructor
(outside the `try`) throws, and `transform` fails at the dataset
level instead of returning a same-length dataset. -/
theorem claim5_transform_counterexample :
    parseExpr ("b=1".toList) = some ("b".toList, "1".toList) ∧
    transform [[("a(".toList, "1".toList)]] ("b=1".toList) = none := by
  constructor <;> decide

/-- C5 (amended): for every dataset whose column names interpolate into
valid word-boundary patterns (identifier-like names in particular) and
every valid expression `ident = body`, transform does not fail at the
dataset level: it returns a dataset of the same length in which every
record keeps each binding of the other keys, the derived key is
appended at the end when new and overwritten in place when it collides,
and its value is the rendered evaluation result — the empty string when
evaluation fails. -/
theorem claim5_transform_structure (data : List Record) (e ident body : Str)
    (hparse : parseExpr e = some (ident, body))
    (hsafe : ∀ r ∈ data, ∀ p ∈ r, jsWordPatternOk p.1 = true) :
    ∃ out, transform data e = some out ∧ out.length = data.length ∧
      ∀ i (hi : i < data.length) (ho : i < out.length),
        (∀ p ∈ data[i], p.1 ≠ ident → p ∈ out[i]) ∧
        keysOf out[i] =
          (if ident ∈ keysOf data[i] then keysOf data[i] else keysOf data[i] ++ [ident]) ∧
        lookupD out[i] ident =
          (match evalJS (substRow data[i] body) with
           | some v => renderVal v
           | none => []) := by
  refine ⟨data.map (fun row => objInsert row ident
    (match evalJS (substRow row body) with
     | some v => renderVal v
     | none => [])), ?_, by simp, ?_⟩
  · unfold transform
    rw [hparse]
    apply mapM_eq_some_map
    intro r hr
    rw [substRowE_of_safe r body (hsafe r hr)]
    rfl
  · intro i hi ho
    have hout : (data.map (fun row => objInsert row ident
        (match evalJS (substRow row body) with
         | some v => renderVal v
         | none => [])))[i] = objInsert data[i] ident
        (match evalJS (substRow data[i] body) with
         | some v => renderVal v
         | none => []) := List.getElem_map _
    rw [hout]
    exact ⟨fun p hp hne => mem_objInsert_of_ne _ _ _ p hp hne,
      keysOf_objInsert _ _ _, lookupD_objInsert_self _ _ _⟩

/-- C5 witness: the spec's `total=price*qty` example on a one-record
dataset. -/
theorem claim5_transform_structure_witness :
    ∃ out, transform [[("price".toList, "10".toList), ("qty".toList, "3".toList)]]
        ("total=price*qty".toList) = some out ∧
      out.length = 1 ∧
      ∀ i (hi : i < ([[("price".toList, "10".toList), ("qty".toList, "3".toList)]] :
          List Record).length) (ho : i < out.length),
        (∀ p ∈ ([[("price".toList, "10".toList), ("qty".toList, "3".toList)]] :
            List Record)[i], p.1 ≠ "total".toList → p ∈ out[i]) ∧
        keysOf out[i] =
          (if "total".toList ∈ keysOf ([[("price".toList, "10".toList),
              ("qty".toList, "3".toList)]] : List Record)[i] then
            keysOf ([[("price".toList, "10".toList), ("qty".toList, "3".toList)]] :
              List Record)[i]
          else keysOf ([[("price".toList, "10".toList), ("qty".toList, "3".toList)]] :
              List Record)[i] ++ ["total".toList]) ∧
        lookupD out[i] ("total".toList) =
          (match evalJS (substRow ([[("price".toList, "10".toList),
              ("qty".toList, "3".toList)]] : List Record)[i] ("price*qty".toList)) with
           | some v => renderVal v
           | none => []) :=
  claim5_transform_structure [[("price".toList, "10".toList), ("qty".toList, "3".toList)]]
    ("total=price*qty".toList) ("total".toList) ("price*qty".toList) (by decide) (by decide)

/-! ## Whole-word substitution lemmas and claim C2 -/

/-- The `prevOut` context steps through a cons like the scanner does. -/
theorem prevOut_cons (c : Char) (pre : Str) (w : Bool) :
    prevOut (c :: pre) w = prevOut pre (isWordChar c) := by
  cases pre with
  | nil => rfl
  | cons b t =>
      unfold prevOut
      rw [List.getLast?_cons_cons]
      cases hgl : (b :: t).getLast? with
      | none => simp at hgl
      | some x => rfl

/-- No whole-word match can start where the column is not even a string
prefix. -/
theorem wordMatchAt_false_of_not_prefix (col : Str) (w : Bool) (s : Str)
    (h : col.isPrefixOf s = false) : wordMatchAt col w s = false := by
  unfold wordMatchAt
  rw [h]
  simp

/-- The scanner copies verbatim any prefix inside which the column never
occurs as a string prefix. -/
theorem skipScan (col r : Str) :
    ∀ (pre rest : Str) (fuel : Nat) (prevW : Bool),
      (pre ++ rest).length ≤ fuel →
      (∀ i, i < pre.length → col.isPrefixOf ((pre ++ rest).drop i) = false) →
      replaceWordAux col r fuel prevW (pre ++ rest) =
        pre ++ replaceWordAux col r (fuel - pre.length) (prevOut pre prevW) rest := by
  intro pre
  induction pre with
  | nil =>
      intro rest fuel prevW hf hnp
      simp [prevOut]
  | cons c pre' ih =>
      intro rest fuel prevW hf hnp
      cases fuel with
      | zero =>
          simp only [List.cons_append, List.length_cons] at hf
          omega
      | succ f =>
          rw [List.cons_append, replaceWordAux,
            wordMatchAt_false_of_not_prefix col prevW _
              (by simpa using hnp 0 (by simp))]
          simp only [Bool.false_eq_true, if_false]
          rw [ih rest f (isWordChar c)
            (by simp only [List.cons_append, List.length_cons] at hf; simpa using Nat.lt_succ_iff.mp (Nat.lt_of_lt_of_le (Nat.lt_succ_of_le (le_refl _)) hf))
            (fun i hi => by simpa using hnp (i + 1) (by simp; omega))]
          rw [prevOut_cons, List.cons_append]
          congr 1
          congr 1
          simp [Nat.succ_sub_succ]

/-- The last element of a non-empty list, with any default, is a member. -/
theorem getLastD_mem (l : Str) (x : Char) (h : l ≠ []) : l.getLastD x ∈ l := by
  induction l with
  | nil => exact absurd rfl h
  | cons a t ih =>
      cases t with
      | nil => simp [List.getLastD]
      | cons b t' =>
          have h1 : (a :: b :: t').getLastD x = (b :: t').getLastD x :=
            getLastD_stable (b :: t') (by simp) a x
          rw [h1]
          exact List.mem_cons_of_mem a (ih (by simp))

/-- The column itself is a string prefix of `col ++ post`. -/
theorem isPrefixOf_append_self : ∀ (l t : Str), l.isPrefixOf (l ++ t) = true := by
  intro l
  induction l with
  | nil => intro t; simp [List.isPrefixOf]
  | cons c l' ih => intro t; simp [List.isPrefixOf, ih]

/-- The after-match lookahead equals the word status of the head with a
space default. -/
theorem matchhead_eq (post : Str) :
    (match post.head? with
     | some c => isWordChar c
     | none => false) = isWordChar (post.headD ' ') := by
  cases post <;> rfl

/-- At a whole-word occurrence (non-word context on both sides), the
scanner splices the replacement and continues after the match. -/
theorem matchScan (col r post : Str) (hcol : col ≠ []) (hw : col.all isWordChar = true)
    (hpost : isWordChar (post.headD ' ') = false) (f : Nat) :
    replaceWordAux col r (f + 1) false (col ++ post) =
      r ++ replaceWordAux col r f true post := by
  have hlastmem : col.getLastD '_' ∈ col := getLastD_mem col '_' hcol
  have hlastw : isWordChar (col.getLastD '_') = true := by
    rw [List.all_eq_true] at hw
    exact hw _ hlastmem
  cases col with
  | nil => exact absurd rfl hcol
  | cons c0 ct =>
      have hheadw : isWordChar c0 = true := by
        rw [List.all_eq_true] at hw
        exact hw c0 (by simp)
      have hdrop : ((c0 :: ct) ++ post).drop (c0 :: ct).length = post := List.drop_left _ _
      have hm : wordMatchAt (c0 :: ct) false ((c0 :: ct) ++ post) = true := by
        unfold wordMatchAt
        rw [isPrefixOf_append_self, hdrop, matchhead_eq post, hpost, hlastw]
        simp [hheadw]
      rw [List.cons_append, replaceWordAux, ← List.cons_append, hm]
      simp only [if_true]
      rw [hdrop, hlastw]

/-- Where no whole-word occurrence exists, the scanner is the
identity (for any fuel). -/
theorem noOccScan (col r : Str) : ∀ (s : Str) (fuel : Nat) (prevW : Bool),
    hasWordOccAux col prevW s = false → replaceWordAux col r fuel prevW s = s := by
  intro s
  induction s with
  | nil => intro fuel prevW _; cases fuel <;> rfl
  | cons c rest ih =>
      intro fuel prevW h
      rw [hasWordOccAux, Bool.or_eq_false_iff] at h
      cases fuel with
      | zero => rfl
      | succ f =>
          rw [replaceWordAux, h.1]
          simp only [Bool.false_eq_true, if_false]
          rw [ih f (isWordChar c) h.2]

/-- Decimal digit characters are not the double quote. -/
theorem digitChar_ne_quote (n : Nat) (h : n < 10) : digitChar n ≠ '"' := by
  interval_cases n <;> decide

/-- A `natDigitsAux` output is a non-empty string starting with a digit
(in particular, not a quote). -/
theorem natDigitsAux_head : ∀ (fuel n : Nat),
    ∃ c t, natDigitsAux (fuel + 1) n = c :: t ∧ c ≠ '"' := by
  intro fuel
  induction fuel with
  | zero =>
      intro n
      by_cases h : n < 10
      · exact ⟨digitChar n, [], by simp [natDigitsAux, h], digitChar_ne_quote n h⟩
      · refine ⟨digitChar (n % 10), [], ?_, digitChar_ne_quote _ (Nat.mod_lt _ (by omega))⟩
        simp [natDigitsAux, h]
  | succ f ih =>
      intro n
      by_cases h : n < 10
      · exact ⟨digitChar n, [], by simp [natDigitsAux, h], digitChar_ne_quote n h⟩
      · obtain ⟨c, t, he, hc⟩ := ih (n / 10)
        refine ⟨c, t ++ [digitChar (n % 10)], ?_, hc⟩
        have hstep : natDigitsAux (f + 1 + 1) n =
            if n < 10 then [digitChar n]
            else natDigitsAux (f + 1) (n / 10) ++ [digitChar (n % 10)] := rfl
        rw [hstep, if_neg h, he, List.cons_append]

/-- A rendered JS number never starts with a double quote. -/
theorem renderJsNum_head (n : JsNum) : ∃ c t, renderJsNum n = c :: t ∧ c ≠ '"' := by
  cases n with
  | inf neg =>
      cases neg
      · exact ⟨'I', _, rfl, by decide⟩
      · exact ⟨'-', _, rfl, by decide⟩
  | fin q =>
      simp only [renderJsNum, renderQ]
      by_cases hq : q < 0
      · rw [if_pos hq]
        exact ⟨'-', _, rfl, by decide⟩
      · rw [if_neg hq]
        unfold renderQNN natDigits
        obtain ⟨c, t, he, hc⟩ := natDigitsAux_head q.floor.toNat q.floor.toNat
        refine ⟨c, t ++ (if (fracDigits 32 (ratSub q (mkRat q.floor 1))).isEmpty then []
          else '.' :: fracDigits 32 (ratSub q (mkRat q.floor 1))), ?_, hc⟩
        simp only [he, List.cons_append]

/-- The per-column replacement is the quote-wrapped value exactly when
`parseFloat` fails on the value. -/
theorem replacementFor_quote_iff (val : Str) :
    (replacementFor val = '"' :: (val ++ ['"'])) ↔ jsParseFloat val = none := by
  constructor
  · intro h
    cases hj : jsParseFloat val with
    | none => rfl
    | some n =>
        exfalso
        simp only [replacementFor, hj] at h
        obtain ⟨c, t, he, hc⟩ := renderJsNum_head n
        rw [he] at h
        injection h with h1 _
        exact hc h1
  · intro h
    simp only [replacementFor, h]

/-- C2, counterexample to the claim as stated: the value `25abc` does
not parse fully (in its entirety) as a float, yet the occurrence of the
column is replaced by the numeric literal `25` (the parsed numeric
prefix), not by the double-quoted value. -/
theorem claim2_substitution_counterexample :
    substOne ("25abc".toList) (['x']) (['x']) = "25".toList ∧
    specFullFloat ("25abc".toList) = false ∧
    "25".toList ≠ '"' :: ("25abc".toList ++ ['"']) := by
  refine ⟨?_, ?_, ?_⟩ <;> decide

/-- C2 (amended): for a whole-word occurrence of an identifier-like
column name in the expression body (no other occurrence starting in the
prefix or appearing after), the occurrence is replaced by the rendering
of `parseFloat(value)` when `parseFloat` finds a numeric prefix, and by
the value wrapped in double quotes exactly when `parseFloat` yields
`NaN`. -/
theorem claim2_substitution_amended (col val pre post : Str)
    (hcol : col ≠ []) (hw : col.all isWordChar = true)
    (hpre : isWordChar (pre.getLastD ' ') = false)
    (hpost : isWordChar (post.headD ' ') = false)
    (hnp : ∀ i, i < pre.length → col.isPrefixOf ((pre ++ (col ++ post)).drop i) = false)
    (hno : hasWordOccAux col true post = false) :
    substOne val col (pre ++ (col ++ post)) = pre ++ (replacementFor val ++ post) ∧
    (replacementFor val = '"' :: (val ++ ['"']) ↔ jsParseFloat val = none) := by
  refine ⟨?_, replacementFor_quote_iff val⟩
  unfold substOne replaceWordAll
  rw [skipScan col _ pre (col ++ post) _ false (le_refl _) hnp]
  have hpo : prevOut pre false = false := by
    cases pre with
    | nil => rfl
    | cons c pre' =>
        unfold prevOut
        cases hgl : (c :: pre').getLast? with
        | none => simp at hgl
        | some x =>
            have hx : (c :: pre').getLastD ' ' = x := by
              rw [List.getLastD_eq_getLast?, hgl]
              rfl
            rw [hx] at hpre
            exact hpre
  rw [hpo]
  have hflen : (pre ++ (col ++ post)).length - pre.length = (col ++ post).length := by
    simp
  rw [hflen]
  have hm : ∃ m, (col ++ post).length = m + 1 := by
    cases col with
    | nil => exact absurd rfl hcol
    | cons a b => exact ⟨(b ++ post).length, by simp⟩
  obtain ⟨m, hme⟩ := hm
  rw [hme, matchScan col _ post hcol hw hpost m, noOccScan col _ post m true hno]

/-- C2 witness: substituting `qty = 3` into the tail of the body
`price*qty` (prefix `price*`, no trailing occurrence). -/
theorem claim2_substitution_amended_witness :
    substOne ("3".toList) ("qty".toList)
        ("price*".toList ++ ("qty".toList ++ [])) =
      "price*".toList ++ (replacementFor ("3".toList) ++ []) ∧
    (replacementFor ("3".toList) = '"' :: ("3".toList ++ ['"']) ↔
      jsParseFloat ("3".toList) = none) :=
  claim2_substitution_amended ("qty".toList) ("3".toList) ("price*".toList) []
    (by decide) (by decide) (by decide) (by decide) (by decide) (by decide)

end Csvkit
